import Mathlib

/-!
# Verification of the `FileTracker` core of vscode-css-navigation

Shallow embedding of `src/server/src/libs/file-tracker.ts`.

The tracker keeps, per tracked file path, a record (`TrackMapItem`) with an
optional attached text document, a version number, an `opened` flag, a
`fresh` flag and a single-flight update-promise handle.  Registry-wide state
is the path→record map (a JS `Map`, i.e. insertion ordered — modelled as an
association list), the set of ignored paths, the `allFresh` cache and the
`startPathLoaded` flag.

Disk input is modelled as a function `Disk : String → Option String`
(`readText` result; `none` models a thrown read error).  Hook invocations
(`onTrack`, `onExpired`, `onUpdate`, `onUnTrack`) and `readText` calls are
recorded in ghost instrumentation fields (`hooks`, `diskReads`) so that
"the hook fires exactly once" and "one disk read" become provable facts;
these fields correspond to no data of the source, only to its observable
calls.

The sequential functions below give the behaviour of each operation run to
completion with no other task interleaved (the source is single-threaded
JavaScript with cooperative suspension).  The single-flight behaviour of
`doUpdate` under *concurrent* callers is modelled separately at the end of
the definitions by a small-step event-loop semantics (`Config`, `step`,
`run`) whose atomic steps are exactly the synchronous segments of the
source between `await` points.
-/

namespace CssNav

/-- Result of `readText` for each path: `some text` on success, `none` when
the read throws. -/
def Disk : Type := String → Option String

/-- Model of a `vscode-languageserver` `TextDocument` as used by the tracker:
only `uri`, `languageId`, `version` and the text are relevant. -/
structure TextDocument where
  uri : String
  languageId : String
  version : Nat
  text : String
deriving DecidableEq, Repr

/-- `TrackMapItem` of the source.  `updatePromise` is `true` while an update
promise is stored in the field (the promise body itself is modelled in the
concurrency section). -/
structure TrackMapItem where
  document : Option TextDocument
  version : Nat
  opened : Bool
  fresh : Bool
  updatePromise : Bool
deriving DecidableEq, Repr

/-- Ghost record of a lifecycle hook invocation. -/
inductive Hook where
  | onTrack (filePath : String)
  | onExpired (filePath : String)
  | onUpdate (filePath : String)
  | onUnTrack (filePath : String)
deriving DecidableEq, Repr

/-- State of a `FileTracker`.  `map` is the JS `Map` (insertion ordered),
`diskReads` and `hooks` are ghost instrumentation counting `readText` calls
and hook invocations. -/
structure FileTracker where
  includeGlobPattern : String
  excludeGlobPattern : Option String
  updateImmediately : Bool
  startPath : Option String
  map : List (String × TrackMapItem)
  ignoredFilePaths : List String
  allFresh : Bool
  startPathLoaded : Bool
  diskReads : Nat
  hooks : List Hook
deriving DecidableEq, Repr

/-- `map.get(k)`: first entry with the given key. -/
def mapGet (m : List (String × TrackMapItem)) (k : String) : Option TrackMapItem :=
  match m with
  | [] => none
  | e :: rest => if e.1 = k then some e.2 else mapGet rest k

/-- In the source, `doUpdate` and friends mutate the record *in place*
through the shared reference; every map entry holding that reference sees
the new value.  We model this by rewriting every entry with the given key. -/
def mapReplace (m : List (String × TrackMapItem)) (k : String) (v : TrackMapItem) :
    List (String × TrackMapItem) :=
  m.map (fun e => if e.1 = k then (k, v) else e)

/-- JavaScript `String.prototype.startsWith`, modelled on the code-point
list of the strings (Lean's own `String.startsWith` is equivalent but its
byte-level implementation does not reduce inside the kernel). -/
def strStartsWith (s d : String) : Bool := List.isPrefixOf d.toList s.toList

/-- Number of entries of the map with the given key (a JS `Map` key is
unique; the model states this as `keyCount = 1` where the claims need it). -/
def keyCount (m : List (String × TrackMapItem)) (k : String) : Nat :=
  m.countP (fun e => decide (e.1 = k))

/-- Number of invocations of a given hook in the ghost log. -/
def hookCount (l : List Hook) (h : Hook) : Nat :=
  l.countP (fun x => decide (x = h))

/-- The `fresh` flag of the record at a key, when present. -/
def freshAt (m : List (String × TrackMapItem)) (k : String) : Option Bool :=
  match mapGet m k with
  | some it => some it.fresh
  | none => none

/-- Node `path.extname` (posix): the extension of the last path segment,
from its last `.` (a leading `.` of the segment does not count). -/
def extname (p : String) : String :=
  let base := (p.splitOn "/").getLastD ""
  let cs := base.toList
  if (cs.drop 1).contains '.' then
    String.mk ('.' :: (cs.reverse.takeWhile (fun c => c ≠ '.')).reverse)
  else ""

/-- `Uri.file(filePath).toString()`, simplified to the scheme plus the path
(percent-encoding is irrelevant to every claim). -/
def fileUri (filePath : String) : String := "file://" ++ filePath

/-- The document built by `loadDocumentFromFilePath` from a `readText`
outcome: on success `TextDocument.create(uri, languageId, 1, text)`; a
thrown read error is caught, logged and yields `null`. -/
def documentFromRead (filePath : String) (res : Option String) : Option TextDocument :=
  let languageId := ((extname filePath).drop 1).toLower
  let uri := fileUri filePath
  match res with
  | some text => some { uri := uri, languageId := languageId, version := 1, text := text }
  | none => none

/-- `loadDocumentFromFilePath`: reads the file and builds the document. -/
def loadDocumentFromFilePath (disk : Disk) (filePath : String) : Option TextDocument :=
  documentFromRead filePath (disk filePath)

/-- Result of running the body of `getUpdatePromise` to completion: the new
record, the number of `readText` calls made, and the hooks fired. -/
structure UpdateRun where
  item : TrackMapItem
  reads : Nat
  fired : List Hook
deriving Repr

/-- Body of `getUpdatePromise`, run to completion: when the record has no
attached opened document, load from disk (assigning `item.document`, and
`item.version` only when the load succeeded); then set `fresh` and await
`onUpdate`. -/
def runGetUpdatePromise (disk : Disk) (filePath : String) (item : TrackMapItem) : UpdateRun :=
  let hasDocumentBefore := item.opened && item.document.isSome
  let (item, reads) :=
    if hasDocumentBefore then (item, 0)
    else
      let doc := loadDocumentFromFilePath disk filePath
      let item := { item with document := doc }
      let item :=
        match doc with
        | some d => { item with version := d.version }
        | none => item
      (item, 1)
  let item := { item with fresh := true }
  { item := item, reads := reads, fired := [Hook.onUpdate filePath] }

/-- `doUpdate`, run to completion with no concurrent task (so the record's
`updatePromise` field is `null` on entry and on exit): an ignored path is a
no-op returning `false`; otherwise the update promise runs and the call
returns `true`. -/
def doUpdate (disk : Disk) (t : FileTracker) (filePath : String) (item : TrackMapItem) :
    FileTracker × Bool :=
  if filePath ∈ t.ignoredFilePaths then (t, false)
  else
    let r := runGetUpdatePromise disk filePath item
    let item := { r.item with updatePromise := false }
    ({ t with
        map := mapReplace t.map filePath item
        diskReads := t.diskReads + r.reads
        hooks := t.hooks ++ r.fired }, true)

/-- `handleTrackFollowed`: push policy reloads immediately; pull policy
clears `allFresh` and fires `onTrack`. -/
def handleTrackFollowed (disk : Disk) (t : FileTracker) (filePath : String)
    (item : TrackMapItem) : FileTracker :=
  if t.updateImmediately then (doUpdate disk t filePath item).1
  else { t with allFresh := false, hooks := t.hooks ++ [Hook.onTrack filePath] }

/-- `trackFile`: creates a record only when the path has none. -/
def trackFile (disk : Disk) (t : FileTracker) (filePath : String) : FileTracker :=
  match mapGet t.map filePath with
  | some _ => t
  | none =>
    let item : TrackMapItem :=
      { document := none, version := 0, opened := false, fresh := false, updatePromise := false }
    let t := { t with map := t.map ++ [(filePath, item)] }
    handleTrackFollowed disk t filePath item

/-- `ignore`: adds the path to the ignored set (the record is kept). -/
def ignore (t : FileTracker) (filePath : String) : FileTracker :=
  { t with ignoredFilePaths :=
      if filePath ∈ t.ignoredFilePaths then t.ignoredFilePaths
      else t.ignoredFilePaths ++ [filePath] }

/-- `notIgnore`: removes the path from the ignored set. -/
def notIgnore (t : FileTracker) (filePath : String) : FileTracker :=
  { t with ignoredFilePaths := t.ignoredFilePaths.filter (fun p => p ≠ filePath) }

/-- `hasIgnored`. -/
def hasIgnored (t : FileTracker) (filePath : String) : Bool :=
  filePath ∈ t.ignoredFilePaths

/-- `handleExpired`: closed record under push policy reloads immediately;
otherwise the record is marked stale, `allFresh` cleared and `onExpired`
fired. -/
def handleExpired (disk : Disk) (t : FileTracker) (filePath : String)
    (item : TrackMapItem) : FileTracker :=
  if !item.opened && t.updateImmediately then (doUpdate disk t filePath item).1
  else
    let item := { item with fresh := false }
    { t with
        map := mapReplace t.map filePath item
        allFresh := false
        hooks := t.hooks ++ [Hook.onExpired filePath] }

/-- `reTrackFile` (watch "changed" on a tracked file, run to completion):
opened records reload only under push policy when stale; closed records drop
content and version and expire. -/
def reTrackFile (disk : Disk) (t : FileTracker) (filePath : String) : FileTracker :=
  match mapGet t.map filePath with
  | some item =>
    if item.opened then
      if !item.fresh && t.updateImmediately then (doUpdate disk t filePath item).1
      else t
    else
      let item := { item with document := none, version := 0 }
      let t := { t with map := mapReplace t.map filePath item }
      handleExpired disk t filePath item
  | none => trackFile disk t filePath

/-- `trackOpenedFile` (buffer opened or its content changed): an existing
record always gets the buffer attached, the buffer's version and
`opened := true`; when the version grew and the record was fresh it is
expired.  A missing record is created opened and handled like a fresh
track. -/
def trackOpenedFile (disk : Disk) (t : FileTracker) (filePath : String)
    (document : TextDocument) : FileTracker :=
  match mapGet t.map filePath with
  | some item =>
    let changed := document.version > item.version
    let item := { item with document := some document, version := document.version, opened := true }
    let t := { t with map := mapReplace t.map filePath item }
    if changed && item.fresh then handleExpired disk t filePath item else t
  | none =>
    let item : TrackMapItem :=
      { document := some document, version := document.version, opened := true,
        fresh := false, updatePromise := false }
    let t := { t with map := t.map ++ [(filePath, item)] }
    handleTrackFollowed disk t filePath item

/-- `unTrackOpenedFile` (buffer closed): detach the document, reset the
version to 1, clear `opened`; freshness and everything else untouched. -/
def unTrackOpenedFile (t : FileTracker) (filePath : String) : FileTracker :=
  match mapGet t.map filePath with
  | some item =>
    let item := { item with document := none, version := 1, opened := false }
    { t with map := mapReplace t.map filePath item }
  | none => t

/-- `unTrackPath` (watch "deleted"): every record whose key starts with the
deleted path is removed from the map and from the ignored set, `onUnTrack`
fires for each removed record in map order, and `allFresh` is cleared. -/
def unTrackPath (t : FileTracker) (deletedPath : String) : FileTracker :=
  let removed := t.map.filter (fun e => strStartsWith e.1 deletedPath)
  { t with
      map := t.map.filter (fun e => !strStartsWith e.1 deletedPath)
      ignoredFilePaths := t.ignoredFilePaths.filter
        (fun p => !(strStartsWith p deletedPath && (mapGet t.map p).isSome))
      allFresh := false
      hooks := t.hooks ++ removed.map (fun e => Hook.onUnTrack e.1) }

/-- `loadStartPath`, with the glob enumeration of files under the start path
supplied as `scanFiles` (the filesystem walk is external to the tracker):
track each found file, then set `startPathLoaded`. -/
def loadStartPath (disk : Disk) (scanFiles : List String) (t : FileTracker) : FileTracker :=
  let t := scanFiles.foldl (fun acc p => trackFile disk acc p) t
  { t with startPathLoaded := true }

/-- The update loop of `beFresh`: for every entry of the map (as it stands
when the loop starts), a stale record gets `doUpdate`. -/
def beFreshLoop (disk : Disk) (t : FileTracker) : FileTracker :=
  t.map.foldl (fun acc e => if !e.2.fresh then (doUpdate disk acc e.1 e.2).1 else acc) t

/-- `beFresh`, run to completion: fast no-op when `allFresh`; otherwise load
the start path if not yet done, reload every stale record, set `allFresh`. -/
def beFresh (disk : Disk) (scanFiles : List String) (t : FileTracker) : FileTracker :=
  if !t.allFresh then
    let t := if !t.startPathLoaded then loadStartPath disk scanFiles t else t
    let t := beFreshLoop disk t
    { t with allFresh := true }
  else t

/-- Node `path.isAbsolute` for posix paths. -/
def isAbsolute (p : String) : Bool := strStartsWith p "/"

/-- `FileTrackerOptions` (the `connection`/`documents` collaborators are the
event sources, not state). -/
structure FileTrackerOptions where
  includeGlobPattern : String
  excludeGlobPattern : Option String
  updateImmediately : Bool
  startPath : Option String
deriving Repr

/-- The constructor: throws (modelled as `Except.error`) when a non-empty
include pattern is an absolute path pattern; otherwise builds the initial
state, and under push policy with a start path immediately loads it. -/
def createFileTracker (disk : Disk) (scanFiles : List String) (options : FileTrackerOptions) :
    Except String FileTracker :=
  if options.includeGlobPattern ≠ "" && isAbsolute options.includeGlobPattern then
    Except.error ("includeGlobPattern parameter \x22" ++ options.includeGlobPattern ++
      "\x22 should not be an absolute path pattern")
  else
    let includeGlobPattern :=
      if options.includeGlobPattern = "" then "**/*" else options.includeGlobPattern
    let startPathLoaded := options.startPath.isNone
    let t : FileTracker :=
      { includeGlobPattern := includeGlobPattern
        excludeGlobPattern := options.excludeGlobPattern
        updateImmediately := options.updateImmediately
        startPath := options.startPath
        map := []
        ignoredFilePaths := []
        allFresh := startPathLoaded
        startPathLoaded := startPathLoaded
        diskReads := 0
        hooks := [] }
    let t :=
      if options.startPath.isSome && t.updateImmediately then loadStartPath disk scanFiles t
      else t
    Except.ok t

/-!
## Event-loop model of concurrent `doUpdate` callers

JavaScript is single-threaded: an `async` function runs synchronously until
its first `await`, and only at `await` points can another task run.  For a
single record, two concurrent `doUpdate` callers and the shared update
promise decompose into these atomic segments:

* caller start (`doUpdate` up to `await item.updatePromise`): check the
  ignore set; when no promise is stored, call `getUpdatePromise` — whose
  body runs synchronously up to its first `await` (`readText` when content
  must come from disk, otherwise it already sets `fresh` and calls
  `onUpdate` up to the hook's first suspension) — store the promise, then
  suspend on it;
* `readText` resolves: assign `item.document` (and `item.version` on
  success), set `fresh`, invoke `onUpdate` up to its first suspension;
* `onUpdate` resolves: the update promise resolves;
* caller resume: clear `item.updatePromise`, return `true`.

`diskReads` counts `readText` calls, `hookFires` counts `onUpdate`
invocations.  The ghost flag `sequentialRestart` records that some caller
took its first step only after the other had already returned — i.e. the
two requests were not concurrent; the single-flight claim is about traces
where it stays `false`.
-/

/-- Program counter of one `doUpdate` caller. -/
inductive TaskPC where
  | ready
  | waiting
  | finished (result : Bool)
deriving DecidableEq, Repr

/-- State of the shared update promise. -/
inductive PromiseState where
  | noPromise
  | reading
  | hooking
  | resolved
deriving DecidableEq, Repr

/-- Whole-system configuration for one record and two `doUpdate` callers. -/
structure Config where
  path : String
  item : TrackMapItem
  ignored : Bool
  promise : PromiseState
  taskA : TaskPC
  taskB : TaskPC
  diskReads : Nat
  hookFires : Nat
  sequentialRestart : Bool
deriving DecidableEq, Repr

/-- Is this caller finished? -/
def isFinished : TaskPC → Bool
  | TaskPC.finished _ => true
  | _ => false

/-- Synchronous prefix of `doUpdate` for a caller whose pc is `ready`:
returns the updated shared state and the caller's next pc. -/
def taskStartShared (c : Config) : Config × TaskPC :=
  if c.ignored then (c, TaskPC.finished false)
  else if c.item.updatePromise then (c, TaskPC.waiting)
  else
    let hasDocumentBefore := c.item.opened && c.item.document.isSome
    if hasDocumentBefore then
      ({ c with
          item := { c.item with updatePromise := true, fresh := true }
          hookFires := c.hookFires + 1
          promise := PromiseState.hooking }, TaskPC.waiting)
    else
      ({ c with
          item := { c.item with updatePromise := true }
          diskReads := c.diskReads + 1
          promise := PromiseState.reading }, TaskPC.waiting)

/-- Resumption of a waiting caller: enabled once the promise it awaits has
resolved; clears the stored promise and returns `true`. -/
def taskResumeShared (c : Config) : Option Config :=
  if c.promise = PromiseState.resolved then
    some { c with item := { c.item with updatePromise := false } }
  else none

/-- One scheduling step of caller A. -/
def stepTaskA (c : Config) : Config :=
  match c.taskA with
  | TaskPC.ready =>
    let c := { c with sequentialRestart := c.sequentialRestart || isFinished c.taskB }
    let r := taskStartShared c
    { r.1 with taskA := r.2 }
  | TaskPC.waiting =>
    match taskResumeShared c with
    | some c2 => { c2 with taskA := TaskPC.finished true }
    | none => c
  | TaskPC.finished _ => c

/-- One scheduling step of caller B. -/
def stepTaskB (c : Config) : Config :=
  match c.taskB with
  | TaskPC.ready =>
    let c := { c with sequentialRestart := c.sequentialRestart || isFinished c.taskA }
    let r := taskStartShared c
    { r.1 with taskB := r.2 }
  | TaskPC.waiting =>
    match taskResumeShared c with
    | some c2 => { c2 with taskB := TaskPC.finished true }
    | none => c
  | TaskPC.finished _ => c

/-- `readText` resolves with outcome `res`; the promise body continues up to
`await onUpdate`. -/
def stepDiskDone (c : Config) (res : Option String) : Config :=
  match c.promise with
  | PromiseState.reading =>
    let doc := documentFromRead c.path res
    let item := { c.item with document := doc }
    let item :=
      match doc with
      | some d => { item with version := d.version }
      | none => item
    let item := { item with fresh := true }
    { c with item := item, hookFires := c.hookFires + 1, promise := PromiseState.hooking }
  | _ => c

/-- The awaited `onUpdate` hook resolves; the update promise resolves. -/
def stepHookDone (c : Config) : Config :=
  if c.promise = PromiseState.hooking then { c with promise := PromiseState.resolved } else c

/-- Scheduler choices: run a caller, resolve the disk read (with its
outcome), or resolve the hook. -/
inductive Choice where
  | taskA
  | taskB
  | diskDone (res : Option String)
  | hookDone
deriving DecidableEq, Repr

/-- One step of the event loop. -/
def step (c : Config) : Choice → Config
  | Choice.taskA => stepTaskA c
  | Choice.taskB => stepTaskB c
  | Choice.diskDone res => stepDiskDone c res
  | Choice.hookDone => stepHookDone c

/-- Run a whole schedule. -/
def run (c : Config) (s : List Choice) : Config :=
  s.foldl step c

/-- Both callers issued against a record with no update in flight. -/
def initConfig (p : String) (item : TrackMapItem) : Config :=
  { path := p, item := item, ignored := false, promise := PromiseState.noPromise,
    taskA := TaskPC.ready, taskB := TaskPC.ready, diskReads := 0, hookFires := 0,
    sequentialRestart := false }

/-- A caller that has not yet returned. -/
def notDone (pc : TaskPC) : Prop := pc = TaskPC.ready ∨ pc = TaskPC.waiting

/-- A caller that has not yet returned, or has returned `true`. -/
def doneOk (pc : TaskPC) : Prop :=
  pc = TaskPC.ready ∨ pc = TaskPC.waiting ∨ pc = TaskPC.finished true

/-- Inductive invariant of the two-caller system started on a non-ignored,
disk-backed record `i0` with no update in flight: unless some caller only
started after the other had already returned (`sequentialRestart`), the
promise goes through its phases exactly once, `readText` runs exactly once,
`onUpdate` fires exactly once, and a caller can only return `true` after
the promise has resolved with the record fresh. -/
def Inv (i0 : TrackMapItem) (c : Config) : Prop :=
  c.sequentialRestart = true ∨
  (c.ignored = false ∧
    ((c.promise = PromiseState.noPromise ∧ c.taskA = TaskPC.ready ∧
       c.taskB = TaskPC.ready ∧ c.item = i0 ∧ c.diskReads = 0 ∧ c.hookFires = 0) ∨
     (c.promise = PromiseState.reading ∧ c.item = { i0 with updatePromise := true } ∧
       c.diskReads = 1 ∧ c.hookFires = 0 ∧ notDone c.taskA ∧ notDone c.taskB) ∨
     (c.promise = PromiseState.hooking ∧ c.item.fresh = true ∧
       c.item.updatePromise = true ∧ c.diskReads = 1 ∧ c.hookFires = 1 ∧
       notDone c.taskA ∧ notDone c.taskB) ∨
     (c.promise = PromiseState.resolved ∧ c.item.fresh = true ∧
       c.diskReads = 1 ∧ c.hookFires = 1 ∧ doneOk c.taskA ∧ doneOk c.taskB ∧
       (c.item.updatePromise = false →
         isFinished c.taskA = true ∨ isFinished c.taskB = true))))

/-!
## Sample values used to instantiate the theorems at concrete inputs
-/

/-- A disk on which every read succeeds. -/
def sampleDisk : Disk := fun _ => some "color:red"

/-- A disk on which every read throws. -/
def failDisk : Disk := fun _ => none

/-- A pull-policy tracker with no tracked files and no start path. -/
def emptyTracker : FileTracker :=
  { includeGlobPattern := "**/*.css", excludeGlobPattern := none,
    updateImmediately := false, startPath := none,
    map := [], ignoredFilePaths := [], allFresh := true, startPathLoaded := true,
    diskReads := 0, hooks := [] }

/-- The record `trackFile` creates, still stale. -/
def staleItem : TrackMapItem :=
  { document := none, version := 0, opened := false, fresh := false, updatePromise := false }

/-- A fresh, closed record with version 1 (a file read from disk). -/
def freshItem : TrackMapItem :=
  { document := none, version := 1, opened := false, fresh := true, updatePromise := false }

/-- A sample buffer document at version 7. -/
def docV7 : TextDocument :=
  { uri := "file:///x.css", languageId := "css", version := 7, text := "b" }

/-- A record with the version-7 buffer attached, open and fresh. -/
def openedFreshItem : TrackMapItem :=
  { document := some docV7, version := 7, opened := true, fresh := true, updatePromise := false }

/-- A schedule of the two-caller system: both callers start, the disk read
resolves (here: fails), the hook resolves, both callers resume. -/
def sampleSchedule : List Choice :=
  [Choice.taskA, Choice.taskB, Choice.diskDone none, Choice.hookDone,
   Choice.taskA, Choice.taskB]

/-- A tracker holding one stale record for `/p/a.css` (`allFresh` cleared,
as `handleTrackFollowed` leaves it after a pull-policy track). -/
def oneStaleTracker : FileTracker :=
  { emptyTracker with
      map := [("/p/a.css", staleItem)]
      allFresh := false }

/-- The same tracker with `/p/a.css` also ignored. -/
def oneStaleIgnoredTracker : FileTracker :=
  { emptyTracker with
      map := [("/p/a.css", staleItem)]
      ignoredFilePaths := ["/p/a.css"]
      allFresh := false }

/-- A sample buffer document at version 1 (a freshly opened buffer). -/
def docV1 : TextDocument :=
  { uri := "file:///x.css", languageId := "css", version := 1, text := "b" }

/-- A sample buffer document at version 2 (an edited buffer). -/
def docV2 : TextDocument :=
  { uri := "file:///x.css", languageId := "css", version := 2, text := "bb" }

/-- A closed, stale record at version 1. -/
def closedStaleV1Item : TrackMapItem :=
  { document := none, version := 1, opened := false, fresh := false, updatePromise := false }

/-- A tracker with `/x.css` tracked closed, stale, at version 1. -/
def oneClosedV1Tracker : FileTracker :=
  { emptyTracker with map := [("/x.css", closedStaleV1Item)] }

/-- A tracker with `/x.css` tracked closed, fresh, at version 1. -/
def oneFreshV1Tracker : FileTracker :=
  { emptyTracker with map := [("/x.css", freshItem)] }

/-- The spec's directory-delete example: three tracked fresh files under
`/a`. -/
def threeTracker : FileTracker :=
  { emptyTracker with
      map := [("/a/b.css", freshItem), ("/a/c.css", freshItem), ("/a/sub/d.css", freshItem)] }

/-!
## Basic facts about the association-list map
-/

theorem mapGet_append_some {m l : List (String × TrackMapItem)} {k : String} {v : TrackMapItem}
    (h : mapGet m k = some v) : mapGet (m ++ l) k = some v := by
  induction m with
  | nil => simp [mapGet] at h
  | cons e rest ih =>
    by_cases he : e.1 = k
    · simpa [mapGet, he] using by simpa [mapGet, he] using h
    · simp [mapGet, he] at h ⊢
      exact ih h

theorem mapGet_append_self {m : List (String × TrackMapItem)} {k : String} {v : TrackMapItem}
    (h : mapGet m k = none) : mapGet (m ++ [(k, v)]) k = some v := by
  induction m with
  | nil => simp [mapGet]
  | cons e rest ih =>
    by_cases he : e.1 = k
    · simp [mapGet, he] at h
    · simp [mapGet, he] at h ⊢
      exact ih h

theorem mapGet_mapReplace_isSome (m : List (String × TrackMapItem)) (k p : String)
    (v : TrackMapItem) : (mapGet (mapReplace m k v) p).isSome = (mapGet m p).isSome := by
  induction m with
  | nil => simp [mapGet, mapReplace]
  | cons e rest ih =>
    by_cases hek : e.1 = k
    · by_cases hkp : k = p
      · subst hkp
        simp [mapGet, mapReplace, hek]
      · simp [mapGet, mapReplace, hek, hkp]
        simpa [mapReplace] using ih
    · by_cases hep : e.1 = p
      · have hpk : ¬ p = k := by rw [← hep]; exact hek
        simp [mapGet, mapReplace, hek, hep, hpk]
      · simp [mapGet, mapReplace, hek, hep]
        simpa [mapReplace] using ih

theorem mapGet_mapReplace_of_eq_some {m : List (String × TrackMapItem)} {k : String}
    {v0 : TrackMapItem} (v : TrackMapItem) (h : mapGet m k = some v0) :
    mapGet (mapReplace m k v) k = some v := by
  induction m with
  | nil => simp [mapGet] at h
  | cons e rest ih =>
    by_cases hek : e.1 = k
    · simp [mapGet, mapReplace, hek]
    · simp [mapGet, mapReplace, hek] at h ⊢
      exact ih h

theorem mapGet_mapReplace_ne {m : List (String × TrackMapItem)} {k p : String}
    (v : TrackMapItem) (h : p ≠ k) : mapGet (mapReplace m k v) p = mapGet m p := by
  induction m with
  | nil => simp [mapGet, mapReplace]
  | cons e rest ih =>
    by_cases hek : e.1 = k
    · simp [mapGet, mapReplace, hek, (by simpa [hek] using fun hh => h hh.symm : ¬ (k = p)), Ne.symm h]
      simpa [mapReplace] using ih
    · by_cases hep : e.1 = p
      · simp [mapGet, mapReplace, hek, hep, h]
      · simp [mapGet, mapReplace, hek, hep]
        simpa [mapReplace] using ih

theorem keyCount_eq_zero {m : List (String × TrackMapItem)} {k : String}
    (h : mapGet m k = none) : keyCount m k = 0 := by
  induction m with
  | nil => simp [keyCount]
  | cons e rest ih =>
    by_cases he : e.1 = k
    · simp [mapGet, he] at h
    · simp [mapGet, he] at h
      simpa [keyCount, List.countP_cons, he] using ih h

theorem keyCount_mapReplace (m : List (String × TrackMapItem)) (k q : String)
    (v : TrackMapItem) : keyCount (mapReplace m k v) q = keyCount m q := by
  induction m with
  | nil => simp [keyCount, mapReplace]
  | cons e rest ih =>
    by_cases hek : e.1 = k
    · simpa [keyCount, mapReplace, List.countP_cons, hek] using
        by simpa [keyCount, mapReplace] using ih
    · simpa [keyCount, mapReplace, List.countP_cons, hek] using
        by simpa [keyCount, mapReplace] using ih

theorem keyCount_append (m l : List (String × TrackMapItem)) (k : String) :
    keyCount (m ++ l) k = keyCount m k + keyCount l k := by
  simp [keyCount, List.countP_append]

theorem mem_of_mapGet_eq_some {m : List (String × TrackMapItem)} {p : String}
    {v : TrackMapItem} (h : mapGet m p = some v) : (p, v) ∈ m := by
  induction m with
  | nil => simp [mapGet] at h
  | cons e rest ih =>
    by_cases he : e.1 = p
    · simp [mapGet, he] at h
      have hev : e = (p, v) := by
        obtain ⟨e1, e2⟩ := e
        simp at he h
        rw [he, h]
      rw [hev]
      exact List.mem_cons_self _ _
    · simp [mapGet, he] at h
      exact List.mem_cons_of_mem e (ih h)

theorem mapGet_isSome_of_mem {m : List (String × TrackMapItem)} {p : String}
    {v : TrackMapItem} (h : (p, v) ∈ m) : (mapGet m p).isSome = true := by
  induction m with
  | nil => simp at h
  | cons e rest ih =>
    rcases List.mem_cons.mp h with he | hrest
    · simp [mapGet, ← he]
    · by_cases hk : e.1 = p
      · simp [mapGet, hk]
      · simp [mapGet, hk]
        exact ih hrest

theorem keyCount_eq_zero_of_not_key {m : List (String × TrackMapItem)} {p : String}
    (h : p ∉ m.map Prod.fst) : keyCount m p = 0 := by
  induction m with
  | nil => simp [keyCount]
  | cons e rest ih =>
    simp at h
    have : ¬ e.1 = p := fun hh => h.1 hh.symm
    simpa [keyCount, List.countP_cons, this] using ih (by simpa using h.2)

theorem keyCount_eq_one_of_nodup {m : List (String × TrackMapItem)} {p : String}
    {v : TrackMapItem} (hnodup : (m.map Prod.fst).Nodup) (h : mapGet m p = some v) :
    keyCount m p = 1 := by
  induction m with
  | nil => simp [mapGet] at h
  | cons e rest ih =>
    simp at hnodup
    by_cases he : e.1 = p
    · simp [keyCount, List.countP_cons, he]
      intro a b hab hap
      subst hap
      rw [← he] at hab
      exact hnodup.1 b hab
    · simp [mapGet, he] at h
      simpa [keyCount, List.countP_cons, he] using ih hnodup.2 h

theorem mapGet_filter_out {m : List (String × TrackMapItem)} {p d : String}
    (h : strStartsWith p d = true) :
    mapGet (m.filter (fun e => !strStartsWith e.1 d)) p = none := by
  induction m with
  | nil => simp [mapGet]
  | cons e rest ih =>
    by_cases hsw : strStartsWith e.1 d
    · simpa [hsw] using ih
    · have : ¬ e.1 = p := by
        intro hh
        rw [hh] at hsw
        exact hsw h
      simpa [hsw, mapGet, this] using ih

theorem mapGet_filter_keep {m : List (String × TrackMapItem)} {p d : String}
    (h : strStartsWith p d = false) :
    mapGet (m.filter (fun e => !strStartsWith e.1 d)) p = mapGet m p := by
  induction m with
  | nil => simp [mapGet]
  | cons e rest ih =>
    by_cases hsw : strStartsWith e.1 d
    · have : ¬ e.1 = p := by
        intro hh
        rw [hh] at hsw
        rw [h] at hsw
        exact Bool.noConfusion hsw
      simpa [hsw, mapGet, this] using ih
    · have hsw2 : strStartsWith e.1 d = false := by
        revert hsw
        cases strStartsWith e.1 d <;> simp
      by_cases hep : e.1 = p
      · simp [List.filter_cons, hsw2, mapGet, hep, h]
      · simpa [List.filter_cons, hsw2, mapGet, hep, h] using ih

theorem keyCount_filter_startsWith {m : List (String × TrackMapItem)} {p d : String}
    (h : strStartsWith p d = true) :
    keyCount (m.filter (fun e => strStartsWith e.1 d)) p = keyCount m p := by
  induction m with
  | nil => simp [keyCount]
  | cons e rest ih =>
    by_cases hep : e.1 = p
    · simpa [keyCount, List.countP_cons, hep, h] using ih
    · by_cases hsw : strStartsWith e.1 d <;>
        simpa [keyCount, List.countP_cons, hep, hsw] using ih


/-!
## Facts about the reload operation
-/

theorem runGetUpdatePromise_item_fresh (disk : Disk) (p : String) (item : TrackMapItem) :
    (runGetUpdatePromise disk p item).item.fresh = true := by
  unfold runGetUpdatePromise
  by_cases h : item.opened && item.document.isSome <;> simp [h]

theorem runGetUpdatePromise_fired (disk : Disk) (p : String) (item : TrackMapItem) :
    (runGetUpdatePromise disk p item).fired = [Hook.onUpdate p] := by
  unfold runGetUpdatePromise
  by_cases h : item.opened && item.document.isSome <;> simp [h]

theorem doUpdate_keyCount (disk : Disk) (t : FileTracker) (p q : String) (item : TrackMapItem) :
    keyCount (doUpdate disk t p item).1.map q = keyCount t.map q := by
  unfold doUpdate
  by_cases h : p ∈ t.ignoredFilePaths <;> simp [h, keyCount_mapReplace]

theorem doUpdate_isSome (disk : Disk) (t : FileTracker) (p q : String) (item : TrackMapItem) :
    (mapGet (doUpdate disk t p item).1.map q).isSome = (mapGet t.map q).isSome := by
  unfold doUpdate
  by_cases h : p ∈ t.ignoredFilePaths <;> simp [h, mapGet_mapReplace_isSome]

theorem doUpdate_ignored (disk : Disk) (t : FileTracker) (p : String) (item : TrackMapItem)
    (h : p ∈ t.ignoredFilePaths) : doUpdate disk t p item = (t, false) := by
  simp [doUpdate, h]

theorem doUpdate_freshAt (disk : Disk) (t : FileTracker) (p : String)
    (item item0 : TrackMapItem) (hni : p ∉ t.ignoredFilePaths)
    (hmem : mapGet t.map p = some item0) :
    freshAt (doUpdate disk t p item).1.map p = some true := by
  unfold doUpdate
  rw [if_neg hni]
  unfold freshAt
  rw [mapGet_mapReplace_of_eq_some _ hmem]
  simp [runGetUpdatePromise_item_fresh]

theorem doUpdate_ignoredFilePaths (disk : Disk) (t : FileTracker) (p : String)
    (item : TrackMapItem) :
    (doUpdate disk t p item).1.ignoredFilePaths = t.ignoredFilePaths := by
  unfold doUpdate
  by_cases h : p ∈ t.ignoredFilePaths <;> simp [h]

theorem doUpdate_mapGet_ne (disk : Disk) (t : FileTracker) (p q : String)
    (item : TrackMapItem) (h : p ≠ q) :
    mapGet (doUpdate disk t q item).1.map p = mapGet t.map p := by
  unfold doUpdate
  by_cases hq : q ∈ t.ignoredFilePaths <;> simp [hq, mapGet_mapReplace_ne _ h]

theorem doUpdate_freshAt_preserved (disk : Disk) (t : FileTracker) (p q : String)
    (item : TrackMapItem) (hp : p ∉ t.ignoredFilePaths)
    (h : freshAt t.map p = some true) :
    freshAt (doUpdate disk t q item).1.map p = some true := by
  by_cases hpq : p = q
  · subst hpq
    have hsome : ∃ it, mapGet t.map p = some it := by
      unfold freshAt at h
      cases hm : mapGet t.map p with
      | none => rw [hm] at h; exact Option.noConfusion h
      | some it => exact ⟨it, rfl⟩
    obtain ⟨it, hit⟩ := hsome
    exact doUpdate_freshAt disk t p item it hp hit
  · unfold freshAt
    rw [doUpdate_mapGet_ne disk t p q item hpq]
    exact h

theorem handleTrackFollowed_keyCount (disk : Disk) (t : FileTracker) (p q : String)
    (item : TrackMapItem) :
    keyCount (handleTrackFollowed disk t p item).map q = keyCount t.map q := by
  unfold handleTrackFollowed
  by_cases h : t.updateImmediately <;> simp [h, doUpdate_keyCount]

theorem handleTrackFollowed_isSome (disk : Disk) (t : FileTracker) (p q : String)
    (item : TrackMapItem) :
    (mapGet (handleTrackFollowed disk t p item).map q).isSome = (mapGet t.map q).isSome := by
  unfold handleTrackFollowed
  by_cases h : t.updateImmediately <;> simp [h, doUpdate_isSome]

theorem trackFile_of_mapGet_some {disk : Disk} {t : FileTracker} {p : String}
    {item : TrackMapItem} (h : mapGet t.map p = some item) : trackFile disk t p = t := by
  unfold trackFile
  rw [h]

theorem trackFile_mapGet_preserved {disk : Disk} {t : FileTracker} {p : String}
    {item : TrackMapItem} (q : String) (h : mapGet t.map p = some item) :
    mapGet (trackFile disk t q).map p = some item := by
  by_cases hq : (mapGet t.map q).isSome
  · obtain ⟨iq, hiq⟩ := Option.isSome_iff_exists.mp hq
    rw [trackFile_of_mapGet_some hiq]
    exact h
  · have hqn : mapGet t.map q = none := by
      cases hm : mapGet t.map q with
      | none => rfl
      | some x => rw [hm] at hq; simp at hq
    have hpq : p ≠ q := by
      intro hh
      rw [hh, hqn] at h
      exact Option.noConfusion h
    unfold trackFile
    rw [hqn]
    unfold handleTrackFollowed
    by_cases him : t.updateImmediately
    · simp only [him, if_true]
      rw [doUpdate_mapGet_ne _ _ _ _ _ hpq]
      exact mapGet_append_some h
    · simp only [him, Bool.false_eq_true, if_false]
      exact mapGet_append_some h

theorem trackFile_ignoredFilePaths (disk : Disk) (t : FileTracker) (q : String) :
    (trackFile disk t q).ignoredFilePaths = t.ignoredFilePaths := by
  unfold trackFile
  cases hm : mapGet t.map q with
  | some x => rfl
  | none =>
    unfold handleTrackFollowed
    by_cases him : t.updateImmediately <;> simp [him, doUpdate_ignoredFilePaths]

theorem loadStartPath_mapGet {disk : Disk} {p : String} {item : TrackMapItem}
    (scanFiles : List String) (t : FileTracker) (h : mapGet t.map p = some item) :
    mapGet (loadStartPath disk scanFiles t).map p = some item := by
  unfold loadStartPath
  suffices hs : ∀ (l : List String) (acc : FileTracker), mapGet acc.map p = some item →
      mapGet (l.foldl (fun acc q => trackFile disk acc q) acc).map p = some item by
    exact hs scanFiles t h
  intro l
  induction l with
  | nil => intro acc hacc; exact hacc
  | cons q rest ih =>
    intro acc hacc
    exact ih _ (trackFile_mapGet_preserved q hacc)

theorem loadStartPath_ignoredFilePaths (disk : Disk) (scanFiles : List String)
    (t : FileTracker) :
    (loadStartPath disk scanFiles t).ignoredFilePaths = t.ignoredFilePaths := by
  unfold loadStartPath
  suffices hs : ∀ (l : List String) (acc : FileTracker),
      (l.foldl (fun acc q => trackFile disk acc q) acc).ignoredFilePaths =
        acc.ignoredFilePaths by
    exact hs scanFiles t
  intro l
  induction l with
  | nil => intro acc; rfl
  | cons q rest ih =>
    intro acc
    simp only [List.foldl_cons]
    rw [ih (trackFile disk acc q), trackFile_ignoredFilePaths]

theorem beFreshLoop_freshAt (disk : Disk) (p : String) :
    ∀ (L : List (String × TrackMapItem)) (acc : FileTracker),
      p ∉ acc.ignoredFilePaths →
      (freshAt acc.map p = some true ∨
        ∃ it, mapGet acc.map p = some it ∧ it.fresh = false ∧ (p, it) ∈ L) →
      freshAt ((L.foldl (fun acc e => if !e.2.fresh then (doUpdate disk acc e.1 e.2).1
        else acc) acc)).map p = some true := by
  intro L
  induction L with
  | nil =>
    intro acc _ hinv
    rcases hinv with hf | ⟨it, _, _, hmem⟩
    · exact hf
    · simp at hmem
  | cons e rest ih =>
    intro acc hign hinv
    simp only [List.foldl_cons]
    by_cases hef : e.2.fresh
    · -- skip step: the accumulator is unchanged
      have hinv2 : freshAt acc.map p = some true ∨
          ∃ it, mapGet acc.map p = some it ∧ it.fresh = false ∧ (p, it) ∈ rest := by
        rcases hinv with hf | ⟨it, hit, hitf, hmem⟩
        · exact Or.inl hf
        · rcases List.mem_cons.mp hmem with heq | hmem2
          · exfalso
            have : it = e.2 := by rw [← heq]
            rw [this] at hitf
            rw [hef] at hitf
            exact Bool.noConfusion hitf
          · exact Or.inr ⟨it, hit, hitf, hmem2⟩
      simp only [hef, Bool.not_true, Bool.false_eq_true, if_false]
      exact ih acc hign hinv2
    · -- reload step
      have hef2 : e.2.fresh = false := by
        revert hef
        cases e.2.fresh <;> simp
      simp only [hef2, Bool.not_false, if_true]
      have hign2 : p ∉ (doUpdate disk acc e.1 e.2).1.ignoredFilePaths := by
        rw [doUpdate_ignoredFilePaths]
        exact hign
      refine ih _ hign2 ?_
      rcases hinv with hf | ⟨it, hit, hitf, hmem⟩
      · exact Or.inl (doUpdate_freshAt_preserved disk acc p e.1 e.2 hign hf)
      · rcases List.mem_cons.mp hmem with heq | hmem2
        · -- this very entry is the pending stale record: it gets reloaded now
          have hep : e.1 = p := by rw [← heq]
          subst hep
          exact Or.inl (doUpdate_freshAt disk acc e.1 e.2 it hign hit)
        · by_cases hpe : p = e.1
          · subst hpe
            exact Or.inl (doUpdate_freshAt disk acc e.1 e.2 it hign hit)
          · refine Or.inr ⟨it, ?_, hitf, hmem2⟩
            rw [doUpdate_mapGet_ne disk acc p e.1 e.2 hpe]
            exact hit

/-!
## The claims
-/

/-- Claim C4: calling `track` twice on a path yields exactly one record in
the registry; when a record for the path already exists, `trackFile` leaves
the whole tracker state (registry, ignored set, hooks) unchanged. -/
theorem track_twice_single_record (disk : Disk) (t t2 : FileTracker) (p q : String)
    (item : TrackMapItem) (h : mapGet t.map p = none) (h2 : mapGet t2.map q = some item) :
    keyCount (trackFile disk t p).map p = 1 ∧
    trackFile disk (trackFile disk t p) p = trackFile disk t p ∧
    trackFile disk t2 q = t2 := by
  refine ⟨?_, ?_, trackFile_of_mapGet_some h2⟩
  · unfold trackFile
    rw [h]
    simp only [handleTrackFollowed_keyCount]
    rw [keyCount_append, keyCount_eq_zero h]
    simp [keyCount]
  · have hsome : (mapGet (trackFile disk t p).map p).isSome = true := by
      unfold trackFile
      rw [h]
      simp only [handleTrackFollowed_isSome]
      simp [mapGet_append_self h]
    obtain ⟨item1, hitem1⟩ := Option.isSome_iff_exists.mp hsome
    exact trackFile_of_mapGet_some hitem1

/-- Claim C4 witness: instantiated on the empty tracker and a singleton
tracker. -/
theorem track_twice_single_record_witness :
    mapGet emptyTracker.map "/p/a.css" = none ∧
    mapGet [("/q/b.css", freshItem)] "/q/b.css" = some freshItem ∧
    (keyCount (trackFile sampleDisk emptyTracker "/p/a.css").map "/p/a.css" = 1 ∧
     trackFile sampleDisk (trackFile sampleDisk emptyTracker "/p/a.css") "/p/a.css" =
       trackFile sampleDisk emptyTracker "/p/a.css" ∧
     trackFile sampleDisk { emptyTracker with map := [("/q/b.css", freshItem)] } "/q/b.css" =
       { emptyTracker with map := [("/q/b.css", freshItem)] }) :=
  ⟨rfl, by decide,
    track_twice_single_record sampleDisk emptyTracker
      { emptyTracker with map := [("/q/b.css", freshItem)] }
      "/p/a.css" "/q/b.css" freshItem rfl (by decide)⟩

/-- Claim C8: a buffer-closed event on a tracked path detaches the document,
resets the version to 1, clears `opened`, and changes nothing else: the
`fresh` flag, the rest of the registry, the ignored set, `allFresh` and the
ghost observables are untouched. -/
theorem close_buffer_detaches_only (t : FileTracker) (p q : String) (item : TrackMapItem)
    (h : mapGet t.map p = some item) (hq : q ≠ p) :
    mapGet (unTrackOpenedFile t p).map p =
      some { item with document := none, version := 1, opened := false } ∧
    mapGet (unTrackOpenedFile t p).map q = mapGet t.map q ∧
    (unTrackOpenedFile t p).ignoredFilePaths = t.ignoredFilePaths ∧
    (unTrackOpenedFile t p).allFresh = t.allFresh ∧
    (unTrackOpenedFile t p).hooks = t.hooks ∧
    (unTrackOpenedFile t p).diskReads = t.diskReads ∧
    freshAt (unTrackOpenedFile t p).map p = some item.fresh := by
  unfold unTrackOpenedFile
  rw [h]
  refine ⟨mapGet_mapReplace_of_eq_some _ h, mapGet_mapReplace_ne _ hq, rfl, rfl, rfl, rfl, ?_⟩
  simp [freshAt, mapGet_mapReplace_of_eq_some _ h]

/-- Claim C8 witness: closing an open fresh buffer at version 7. -/
theorem close_buffer_detaches_only_witness :
    mapGet [("/x.css", openedFreshItem)] "/x.css" = some openedFreshItem ∧
    ("/y.css" : String) ≠ "/x.css" ∧
    mapGet (unTrackOpenedFile { emptyTracker with
      map := [("/x.css", openedFreshItem)] } "/x.css").map "/x.css" =
      some { openedFreshItem with document := none, version := 1, opened := false } := by
  refine ⟨by decide, by decide, ?_⟩
  have h := close_buffer_detaches_only
    { emptyTracker with map := [("/x.css", openedFreshItem)] }
    "/x.css" "/y.css" openedFreshItem (by decide) (by decide)
  exact h.1

/-- Claim C9: construction fails (throws) exactly when the supplied include
glob pattern is an absolute path pattern; for every non-absolute include
pattern construction succeeds. -/
theorem constructor_rejects_absolute_include (disk : Disk) (scanFiles : List String)
    (options : FileTrackerOptions) :
    (createFileTracker disk scanFiles options).toOption.isSome
      = !isAbsolute options.includeGlobPattern := by
  unfold createFileTracker
  by_cases habs : isAbsolute options.includeGlobPattern
  · have hne : options.includeGlobPattern ≠ "" := by
      intro hempty
      rw [hempty] at habs
      exact absurd habs (by decide)
    simp [habs, hne, Except.toOption]
  · simp [habs, Except.toOption]

/-- Claim C7: when the disk read of a record with no attached document
throws, the reload still completes: the document stays `null`, the record
still becomes fresh, the `onUpdate` hook still fires, one read was
attempted, and `doUpdate` still returns normally (so `beFresh` resolves). -/
theorem read_failure_still_fresh (disk : Disk) (t : FileTracker) (p : String)
    (item : TrackMapItem) (hdoc : item.document = none) (hdisk : disk p = none)
    (hign : p ∉ t.ignoredFilePaths) (hmem : mapGet t.map p = some item) :
    runGetUpdatePromise disk p item =
      { item := { item with document := none, fresh := true }, reads := 1,
        fired := [Hook.onUpdate p] } ∧
    (doUpdate disk t p item).2 = true ∧
    mapGet (doUpdate disk t p item).1.map p =
      some { item with document := none, fresh := true, updatePromise := false } ∧
    (doUpdate disk t p item).1.hooks = t.hooks ++ [Hook.onUpdate p] ∧
    (doUpdate disk t p item).1.diskReads = t.diskReads + 1 := by
  have hrun : runGetUpdatePromise disk p item =
      { item := { item with document := none, fresh := true }, reads := 1,
        fired := [Hook.onUpdate p] } := by
    unfold runGetUpdatePromise
    simp [hdoc, loadDocumentFromFilePath, documentFromRead, hdisk]
  refine ⟨hrun, ?_, ?_, ?_, ?_⟩ <;>
    simp [doUpdate, hign, hrun, mapGet_mapReplace_of_eq_some _ hmem]

/-- Claim C7 witness: a stale closed record on a disk whose reads throw. -/
theorem read_failure_still_fresh_witness :
    staleItem.document = none ∧ failDisk "/p/a.css" = none ∧
    "/p/a.css" ∉ emptyTracker.ignoredFilePaths ∧
    mapGet [("/p/a.css", staleItem)] "/p/a.css" = some staleItem ∧
    (doUpdate failDisk { emptyTracker with map := [("/p/a.css", staleItem)] }
      "/p/a.css" staleItem).2 = true ∧
    mapGet (doUpdate failDisk { emptyTracker with map := [("/p/a.css", staleItem)] }
      "/p/a.css" staleItem).1.map "/p/a.css" =
      some { staleItem with document := none, fresh := true, updatePromise := false } := by
  have h := read_failure_still_fresh failDisk
    { emptyTracker with map := [("/p/a.css", staleItem)] } "/p/a.css" staleItem
    rfl rfl (by decide) (by decide)
  exact ⟨rfl, rfl, by decide, by decide, h.2.1, h.2.2.1⟩

/-- Claim C3: a reload request (`doUpdate`) for an ignored path is a
complete no-op — the tracker state, including the record's `fresh` flag,
the read counter and the hook log, is returned unchanged and the call
reports `false`; once `notIgnore` restores the path, the next reload
request proceeds: it reports `true`, leaves the record fresh and fires
`onUpdate`. -/
theorem ignored_reload_is_noop (disk : Disk) (t : FileTracker) (p : String)
    (item : TrackMapItem) (hmem : mapGet t.map p = some item)
    (hign : p ∈ t.ignoredFilePaths) :
    doUpdate disk t p item = (t, false) ∧
    p ∉ (notIgnore t p).ignoredFilePaths ∧
    (doUpdate disk (notIgnore t p) p item).2 = true ∧
    freshAt (doUpdate disk (notIgnore t p) p item).1.map p = some true ∧
    (doUpdate disk (notIgnore t p) p item).1.hooks =
      (notIgnore t p).hooks ++ [Hook.onUpdate p] := by
  have hni : p ∉ (notIgnore t p).ignoredFilePaths := by
    simp [notIgnore]
  have hmem2 : mapGet (notIgnore t p).map p = some item := hmem
  refine ⟨doUpdate_ignored disk t p item hign, hni, ?_,
    doUpdate_freshAt disk (notIgnore t p) p item item hni hmem2, ?_⟩
  · simp [doUpdate, hni]
  · simp [doUpdate, hni, runGetUpdatePromise_fired]

/-- Claim C3 witness: a tracked, ignored, stale record. -/
theorem ignored_reload_is_noop_witness :
    mapGet oneStaleIgnoredTracker.map "/p/a.css" = some staleItem ∧
    "/p/a.css" ∈ oneStaleIgnoredTracker.ignoredFilePaths ∧
    doUpdate sampleDisk oneStaleIgnoredTracker "/p/a.css" staleItem =
      (oneStaleIgnoredTracker, false) ∧
    freshAt (doUpdate sampleDisk (notIgnore oneStaleIgnoredTracker "/p/a.css")
      "/p/a.css" staleItem).1.map "/p/a.css" = some true := by
  have h := ignored_reload_is_noop sampleDisk oneStaleIgnoredTracker
    "/p/a.css" staleItem (by decide) (by decide)
  exact ⟨by decide, by decide, h.1, h.2.2.2.1⟩

/-- Claim C5 counterexample: a buffer event at version 1 on a record at
version 1 — the buffer version is NOT greater than the record version, yet
the buffer IS attached, the version is updated and the record is marked
open, so "only when buffer.version > record.version" is false on the
code. -/
theorem buffer_attach_not_gated :
    ¬ (docV1.version > closedStaleV1Item.version) ∧
    mapGet (trackOpenedFile sampleDisk oneClosedV1Tracker "/x.css" docV1).map "/x.css" =
      some { document := some docV1, version := 1, opened := true, fresh := false,
             updatePromise := false } :=
  ⟨by decide, by decide⟩

/-- Claim C5, amended: on a buffer event for an existing record the buffer
is always attached, the version always becomes the buffer's version and the
record is always marked open; exactly when additionally the version grew and
the record was fresh, the record is expired: `fresh` cleared, `allFresh`
cleared, `onExpired` fired (the record is now open, so `handleExpired`
never takes its immediate-reload branch). -/
theorem buffer_event_always_attaches (disk : Disk) (t : FileTracker) (p : String)
    (item : TrackMapItem) (doc : TextDocument) (hmem : mapGet t.map p = some item) :
    (doc.version > item.version ∧ item.fresh = true →
      mapGet (trackOpenedFile disk t p doc).map p =
        some { item with
                 document := some doc
                 version := doc.version
                 opened := true
                 fresh := false } ∧
      (trackOpenedFile disk t p doc).allFresh = false ∧
      (trackOpenedFile disk t p doc).hooks = t.hooks ++ [Hook.onExpired p]) ∧
    (¬ (doc.version > item.version ∧ item.fresh = true) →
      mapGet (trackOpenedFile disk t p doc).map p =
        some { item with document := some doc, version := doc.version, opened := true } ∧
      (trackOpenedFile disk t p doc).allFresh = t.allFresh ∧
      (trackOpenedFile disk t p doc).hooks = t.hooks) := by
  unfold trackOpenedFile
  rw [hmem]
  constructor
  · intro hc
    have hb : (decide (doc.version > item.version) && item.fresh) = true := by
      simp [hc.1, hc.2]
    simp only [hb, if_true]
    unfold handleExpired
    simp only [Bool.not_true, Bool.false_and, if_neg]
    have h1 : mapGet (mapReplace t.map p
        { item with document := some doc, version := doc.version, opened := true }) p =
        some { item with document := some doc, version := doc.version, opened := true } :=
      mapGet_mapReplace_of_eq_some _ hmem
    refine ⟨?_, rfl, rfl⟩
    exact mapGet_mapReplace_of_eq_some _ h1
  · intro hc
    have hb : (decide (doc.version > item.version) && item.fresh) = false := by
      by_cases hgt : doc.version > item.version <;> by_cases hf : item.fresh = true <;>
        simp_all
    simp only [hb, Bool.false_eq_true, if_false]
    exact ⟨mapGet_mapReplace_of_eq_some _ hmem, by trivial, by trivial⟩

/-- Claim C5 witness for the amended statement: an edited buffer (version 2)
on a fresh version-1 record attaches and expires. -/
theorem buffer_event_always_attaches_witness :
    mapGet oneFreshV1Tracker.map "/x.css" = some freshItem ∧
    (mapGet (trackOpenedFile sampleDisk oneFreshV1Tracker "/x.css" docV2).map "/x.css" =
      some { freshItem with
               document := some docV2
               version := docV2.version
               opened := true
               fresh := false } ∧
     (trackOpenedFile sampleDisk oneFreshV1Tracker "/x.css" docV2).allFresh = false ∧
     (trackOpenedFile sampleDisk oneFreshV1Tracker "/x.css" docV2).hooks =
       oneFreshV1Tracker.hooks ++ [Hook.onExpired "/x.css"]) := by
  have h := buffer_event_always_attaches sampleDisk oneFreshV1Tracker "/x.css" freshItem docV2
    (by decide)
  exact ⟨by decide, h.1 ⟨by decide, rfl⟩⟩

/-- Claim C6: a delete event for `d` removes every record whose key starts
with `d` from the map and from the ignored set, fires `onUnTrack` exactly
once for that record, clears the `allFresh` cache, and leaves records whose
key does not start with `d` untouched. -/
theorem delete_cascade (t : FileTracker) (d p q : String) (item : TrackMapItem)
    (hnodup : (t.map.map Prod.fst).Nodup)
    (hmem : mapGet t.map p = some item) (hsw : strStartsWith p d = true)
    (hqsw : strStartsWith q d = false) :
    mapGet (unTrackPath t d).map p = none ∧
    p ∉ (unTrackPath t d).ignoredFilePaths ∧
    hookCount (unTrackPath t d).hooks (Hook.onUnTrack p) =
      hookCount t.hooks (Hook.onUnTrack p) + 1 ∧
    (unTrackPath t d).allFresh = false ∧
    mapGet (unTrackPath t d).map q = mapGet t.map q := by
  refine ⟨mapGet_filter_out hsw, ?_, ?_, rfl, mapGet_filter_keep hqsw⟩
  · intro hp
    have := List.mem_filter.mp hp
    rw [hsw, mapGet_isSome_of_mem (mem_of_mapGet_eq_some hmem)] at this
    simp at this
  · show hookCount (t.hooks ++ (t.map.filter (fun e => strStartsWith e.1 d)).map
      (fun e => Hook.onUnTrack e.1)) (Hook.onUnTrack p) = _
    rw [hookCount, List.countP_append]
    have hmapped : ((t.map.filter (fun e => strStartsWith e.1 d)).map
        (fun e => Hook.onUnTrack e.1)).countP (fun x => decide (x = Hook.onUnTrack p)) =
        keyCount (t.map.filter (fun e => strStartsWith e.1 d)) p := by
      rw [List.countP_map]
      simp [keyCount, Function.comp_def]
    rw [hmapped, keyCount_filter_startsWith hsw, keyCount_eq_one_of_nodup hnodup hmem]
    rfl

/-- Claim C6 witness: the spec's `/a/b.css`, `/a/c.css`, `/a/sub/d.css`
example — a delete event for `/a` empties the registry and fires
`onUnTrack` once per file, in map order. -/
theorem delete_cascade_witness :
    (threeTracker.map.map Prod.fst).Nodup ∧
    mapGet threeTracker.map "/a/b.css" = some freshItem ∧
    strStartsWith "/a/b.css" "/a" = true ∧ strStartsWith "/z.css" "/a" = false ∧
    hookCount (unTrackPath threeTracker "/a").hooks (Hook.onUnTrack "/a/b.css") =
      hookCount threeTracker.hooks (Hook.onUnTrack "/a/b.css") + 1 ∧
    (unTrackPath threeTracker "/a").map = [] ∧
    (unTrackPath threeTracker "/a").hooks =
      [Hook.onUnTrack "/a/b.css", Hook.onUnTrack "/a/c.css", Hook.onUnTrack "/a/sub/d.css"] ∧
    (unTrackPath threeTracker "/a").allFresh = false := by
  have h := delete_cascade threeTracker "/a" "/a/b.css" "/z.css" freshItem
    (by decide) (by decide) (by decide) (by decide)
  exact ⟨by decide, by decide, by decide, by decide, h.2.2.1, by decide, by decide, h.2.2.2.1⟩

/-- Claim C10: untracking on a delete event matches keys by raw string
comparison — a record survives exactly when its key does not start with the
deleted path string — so a delete event for `/a` also removes the sibling
`/ab.css`, which is not nested under the directory `/a`. -/
theorem untrack_raw_startsWith (t : FileTracker) (d p : String) :
    mapGet (unTrackPath t d).map p =
      (if strStartsWith p d = true then none else mapGet t.map p) ∧
    strStartsWith "/ab.css" "/a" = true ∧
    mapGet (unTrackPath { emptyTracker with map := [("/ab.css", freshItem)] } "/a").map
      "/ab.css" = none := by
  refine ⟨?_, by decide, by decide⟩
  by_cases hsw : strStartsWith p d
  · simp only [unTrackPath, hsw, if_true]
    exact mapGet_filter_out hsw
  · have hsw2 : strStartsWith p d = false := by
      revert hsw
      cases strStartsWith p d <;> simp
    simp only [unTrackPath, hsw2, Bool.false_eq_true, if_false]
    exact mapGet_filter_keep hsw2

/-!
## Single-flight: the event-loop invariant
-/

theorem taskStartShared_restart (c : Config) :
    (taskStartShared c).1.sequentialRestart = c.sequentialRestart := by
  unfold taskStartShared
  by_cases hg : c.ignored <;> by_cases hu : c.item.updatePromise <;>
    by_cases hd : c.item.opened && c.item.document.isSome <;> simp [hg, hu, hd]

theorem step_keeps_restart (c : Config) (ch : Choice) (h : c.sequentialRestart = true) :
    (step c ch).sequentialRestart = true := by
  cases ch with
  | taskA =>
    show (stepTaskA c).sequentialRestart = true
    unfold stepTaskA
    cases hA : c.taskA with
    | ready =>
      simp only []
      rw [taskStartShared_restart]
      simp [h]
    | waiting =>
      unfold taskResumeShared
      by_cases hp : c.promise = PromiseState.resolved <;> simp [hp, h]
    | finished r => exact h
  | taskB =>
    show (stepTaskB c).sequentialRestart = true
    unfold stepTaskB
    cases hB : c.taskB with
    | ready =>
      simp only []
      rw [taskStartShared_restart]
      simp [h]
    | waiting =>
      unfold taskResumeShared
      by_cases hp : c.promise = PromiseState.resolved <;> simp [hp, h]
    | finished r => exact h
  | diskDone res =>
    show (stepDiskDone c res).sequentialRestart = true
    unfold stepDiskDone
    cases c.promise <;> simp [h]
  | hookDone =>
    show (stepHookDone c).sequentialRestart = true
    unfold stepHookDone
    by_cases hp : c.promise = PromiseState.hooking <;> simp [hp, h]

theorem Inv_step (i0 : TrackMapItem) (h1 : i0.updatePromise = false)
    (h2 : (i0.opened && i0.document.isSome) = false) (c : Config) (ch : Choice)
    (hInv : Inv i0 c) : Inv i0 (step c ch) := by
  rcases hInv with hseq | ⟨hig, hcase⟩
  · exact Or.inl (step_keeps_restart c ch hseq)
  obtain ⟨cp, citem, cig, cprom, cA, cB, cdr, chf, cseq⟩ := c
  simp only at hig
  subst hig
  cases ch with
  | taskA =>
    rcases hcase with ⟨hp, hA, hB, hitem, hdr, hhf⟩ | ⟨hp, hitem, hdr, hhf, hA, hB⟩ |
      ⟨hp, hfr, hup, hdr, hhf, hA, hB⟩ | ⟨hp, hfr, hdr, hhf, hA, hB, himp⟩
    · simp only at hp hA hB hitem hdr hhf
      subst hp hA hB hitem hdr hhf
      right
      simp [step, stepTaskA, taskStartShared, isFinished, h1, h2, Inv, notDone]
    · simp only at hp hitem hdr hhf
      subst hp hitem hdr hhf
      rcases hA with hA | hA <;> rcases hB with hB | hB <;> simp only at hA hB <;>
        subst hA <;> subst hB <;> right <;>
        simp [step, stepTaskA, taskStartShared, taskResumeShared, isFinished, notDone]
    · simp only at hp hfr hup hdr hhf
      subst hp hdr hhf
      rcases hA with hA | hA <;> rcases hB with hB | hB <;> simp only at hA hB <;>
        subst hA <;> subst hB <;> right <;>
        simp [step, stepTaskA, taskStartShared, taskResumeShared, isFinished, notDone,
          hfr, hup]
    · simp only at hp hfr hdr hhf himp
      subst hp hdr hhf
      rcases hA with hA | hA | hA <;> simp only at hA <;> subst hA
      · -- caller A still ready
        by_cases hup : citem.updatePromise = true
        · -- it joins the stored promise
          right
          rcases hB with hB | hB | hB <;> simp only at hB <;> subst hB <;>
            simp [step, stepTaskA, taskStartShared, hup, notDone, doneOk, isFinished, hfr]
        · have hupf : citem.updatePromise = false := by
            revert hup
            cases citem.updatePromise <;> simp
          rcases hB with hB | hB | hB <;> simp only at hB <;> subst hB
          · rcases himp hupf with hf | hf <;> simp [isFinished] at hf
          · rcases himp hupf with hf | hf <;> simp [isFinished] at hf
          · -- the other caller already returned: ghost flag is set
            left
            simp only [step, stepTaskA]
            rw [taskStartShared_restart]
            simp [isFinished]
      · -- caller A waiting: it resumes and returns true
        right
        rcases hB with hB | hB | hB <;> simp only at hB <;> subst hB <;>
          simp [step, stepTaskA, taskResumeShared, hfr, notDone, doneOk, isFinished]
      · -- caller A already returned: no-op
        right
        refine ⟨rfl, Or.inr (Or.inr (Or.inr ?_))⟩
        exact ⟨rfl, hfr, rfl, rfl, Or.inr (Or.inr rfl), hB, himp⟩
  | taskB =>
    rcases hcase with ⟨hp, hA, hB, hitem, hdr, hhf⟩ | ⟨hp, hitem, hdr, hhf, hA, hB⟩ |
      ⟨hp, hfr, hup, hdr, hhf, hA, hB⟩ | ⟨hp, hfr, hdr, hhf, hA, hB, himp⟩
    · simp only at hp hA hB hitem hdr hhf
      subst hp hA hB hitem hdr hhf
      right
      simp [step, stepTaskB, taskStartShared, isFinished, h1, h2, Inv, notDone]
    · simp only at hp hitem hdr hhf
      subst hp hitem hdr hhf
      rcases hA with hA | hA <;> rcases hB with hB | hB <;> simp only at hA hB <;>
        subst hA <;> subst hB <;> right <;>
        simp [step, stepTaskB, taskStartShared, taskResumeShared, isFinished, notDone]
    · simp only at hp hfr hup hdr hhf
      subst hp hdr hhf
      rcases hA with hA | hA <;> rcases hB with hB | hB <;> simp only at hA hB <;>
        subst hA <;> subst hB <;> right <;>
        simp [step, stepTaskB, taskStartShared, taskResumeShared, isFinished, notDone,
          hfr, hup]
    · simp only at hp hfr hdr hhf himp
      subst hp hdr hhf
      rcases hB with hB | hB | hB <;> simp only at hB <;> subst hB
      · -- caller B still ready
        by_cases hup : citem.updatePromise = true
        · right
          rcases hA with hA | hA | hA <;> simp only at hA <;> subst hA <;>
            simp [step, stepTaskB, taskStartShared, hup, notDone, doneOk, isFinished, hfr]
        · have hupf : citem.updatePromise = false := by
            revert hup
            cases citem.updatePromise <;> simp
          rcases hA with hA | hA | hA <;> simp only at hA <;> subst hA
          · rcases himp hupf with hf | hf <;> simp [isFinished] at hf
          · rcases himp hupf with hf | hf <;> simp [isFinished] at hf
          · left
            simp only [step, stepTaskB]
            rw [taskStartShared_restart]
            simp [isFinished]
      · -- caller B waiting: it resumes and returns true
        right
        rcases hA with hA | hA | hA <;> simp only at hA <;> subst hA <;>
          simp [step, stepTaskB, taskResumeShared, hfr, notDone, doneOk, isFinished]
      · -- caller B already returned: no-op
        right
        refine ⟨rfl, Or.inr (Or.inr (Or.inr ?_))⟩
        exact ⟨rfl, hfr, rfl, rfl, hA, Or.inr (Or.inr rfl), himp⟩
  | diskDone res =>
    rcases hcase with ⟨hp, hA, hB, hitem, hdr, hhf⟩ | ⟨hp, hitem, hdr, hhf, hA, hB⟩ |
      ⟨hp, hfr, hup, hdr, hhf, hA, hB⟩ | ⟨hp, hfr, hdr, hhf, hA, hB, himp⟩
    · simp only at hp hA hB hitem hdr hhf
      subst hp hA hB hitem hdr hhf
      right
      simp [step, stepDiskDone, Inv]
    · simp only at hp hitem hdr hhf
      subst hp hitem hdr hhf
      right
      refine ⟨rfl, Or.inr (Or.inr (Or.inl ?_))⟩
      cases hres : documentFromRead cp res <;>
        simp [step, stepDiskDone, hres, hA, hB]
    · simp only at hp hdr hhf
      subst hp hdr hhf
      right
      exact ⟨rfl, Or.inr (Or.inr (Or.inl ⟨rfl, hfr, hup, rfl, rfl, hA, hB⟩))⟩
    · simp only at hp hdr hhf
      subst hp hdr hhf
      right
      exact ⟨rfl, Or.inr (Or.inr (Or.inr ⟨rfl, hfr, rfl, rfl, hA, hB, himp⟩))⟩
  | hookDone =>
    rcases hcase with ⟨hp, hA, hB, hitem, hdr, hhf⟩ | ⟨hp, hitem, hdr, hhf, hA, hB⟩ |
      ⟨hp, hfr, hup, hdr, hhf, hA, hB⟩ | ⟨hp, hfr, hdr, hhf, hA, hB, himp⟩
    · simp only at hp hA hB hitem hdr hhf
      subst hp hA hB hitem hdr hhf
      right
      simp [step, stepHookDone, Inv]
    · simp only at hp hitem hdr hhf
      subst hp hitem hdr hhf
      right
      exact ⟨rfl, Or.inr (Or.inl ⟨rfl, rfl, rfl, rfl, hA, hB⟩)⟩
    · simp only at hp hfr hup hdr hhf hA hB
      subst hp hdr hhf
      right
      rcases hA with hA | hA <;> rcases hB with hB | hB <;> subst hA <;> subst hB <;>
        simp [step, stepHookDone, notDone, doneOk, hfr, hup]
    · simp only at hp hdr hhf
      subst hp hdr hhf
      right
      exact ⟨rfl, Or.inr (Or.inr (Or.inr ⟨rfl, hfr, rfl, rfl, hA, hB, himp⟩))⟩

theorem Inv_run (i0 : TrackMapItem) (h1 : i0.updatePromise = false)
    (h2 : (i0.opened && i0.document.isSome) = false) :
    ∀ (s : List Choice) (c : Config), Inv i0 c → Inv i0 (run c s) := by
  intro s
  induction s with
  | nil => intro c h; exact h
  | cons ch rest ih =>
    intro c h
    show Inv i0 ((ch :: rest).foldl step c)
    simp only [List.foldl_cons]
    exact ih _ (Inv_step i0 h1 h2 c ch h)

/-- Claim C2: two `doUpdate` callers issued concurrently (neither taking its
first step after the other has already returned) against a non-ignored
tracked record with no attached buffer document and no update in flight:
along every schedule in which both callers have returned, exactly one
`readText` call was made, `onUpdate` was invoked exactly once, both callers
returned `true`, and both observe the record fresh. -/
theorem single_flight_reload (p : String) (i0 : TrackMapItem) (s : List Choice)
    (h1 : i0.updatePromise = false) (h2 : (i0.opened && i0.document.isSome) = false)
    (hA : isFinished (run (initConfig p i0) s).taskA = true)
    (hB : isFinished (run (initConfig p i0) s).taskB = true)
    (hseq : (run (initConfig p i0) s).sequentialRestart = false) :
    (run (initConfig p i0) s).diskReads = 1 ∧
    (run (initConfig p i0) s).hookFires = 1 ∧
    (run (initConfig p i0) s).taskA = TaskPC.finished true ∧
    (run (initConfig p i0) s).taskB = TaskPC.finished true ∧
    (run (initConfig p i0) s).item.fresh = true := by
  have hinv0 : Inv i0 (initConfig p i0) := by
    right
    exact ⟨rfl, Or.inl ⟨rfl, rfl, rfl, rfl, rfl, rfl⟩⟩
  have hinv := Inv_run i0 h1 h2 s (initConfig p i0) hinv0
  rcases hinv with hs | ⟨hig, hcase⟩
  · rw [hs] at hseq
    exact Bool.noConfusion hseq
  rcases hcase with ⟨hp, hA2, hB2, hitem, hdr, hhf⟩ | ⟨hp, hitem, hdr, hhf, hA2, hB2⟩ |
    ⟨hp, hfr, hup, hdr, hhf, hA2, hB2⟩ | ⟨hp, hfr, hdr, hhf, hA2, hB2, himp⟩
  · rw [hA2] at hA
    simp [isFinished] at hA
  · rcases hA2 with h | h <;> rw [h] at hA <;> simp [isFinished] at hA
  · rcases hA2 with h | h <;> rw [h] at hA <;> simp [isFinished] at hA
  · refine ⟨hdr, hhf, ?_, ?_, hfr⟩
    · rcases hA2 with h | h | h
      · rw [h] at hA
        simp [isFinished] at hA
      · rw [h] at hA
        simp [isFinished] at hA
      · exact h
    · rcases hB2 with h | h | h
      · rw [h] at hB
        simp [isFinished] at hB
      · rw [h] at hB
        simp [isFinished] at hB
      · exact h

/-- Claim C2 witness: both callers start before either returns; the reload
runs once and both callers return `true`. -/
theorem single_flight_reload_witness :
    staleItem.updatePromise = false ∧
    (staleItem.opened && staleItem.document.isSome) = false ∧
    isFinished (run (initConfig "/x.css" staleItem) sampleSchedule).taskA = true ∧
    isFinished (run (initConfig "/x.css" staleItem) sampleSchedule).taskB = true ∧
    (run (initConfig "/x.css" staleItem) sampleSchedule).sequentialRestart = false ∧
    ((run (initConfig "/x.css" staleItem) sampleSchedule).diskReads = 1 ∧
     (run (initConfig "/x.css" staleItem) sampleSchedule).hookFires = 1 ∧
     (run (initConfig "/x.css" staleItem) sampleSchedule).taskA = TaskPC.finished true ∧
     (run (initConfig "/x.css" staleItem) sampleSchedule).taskB = TaskPC.finished true ∧
     (run (initConfig "/x.css" staleItem) sampleSchedule).item.fresh = true) := by
  refine ⟨rfl, rfl, by decide, by decide, by decide, ?_⟩
  exact single_flight_reload "/x.css" staleItem sampleSchedule rfl rfl
    (by decide) (by decide) (by decide)

/-- Claim C1 counterexample: a stale record whose path is in the ignored
set stays stale after `beFresh()` resolves (`doUpdate` is a no-op on an
ignored path), so "every record present in the registry at the time of the
call has its fresh flag true, including ignored ones" is false on the
code. -/
theorem befresh_ignored_record_stays_stale :
    oneStaleIgnoredTracker.allFresh = false ∧
    mapGet oneStaleIgnoredTracker.map "/p/a.css" = some staleItem ∧
    "/p/a.css" ∈ oneStaleIgnoredTracker.ignoredFilePaths ∧
    freshAt (beFresh sampleDisk [] oneStaleIgnoredTracker).map "/p/a.css" = some false := by
  refine ⟨rfl, by decide, by decide, by decide⟩

/-- Claim C1, amended: when `beFresh()` is called with the `allFresh` cache
clear, then after it resolves every record present in the registry at the
time of the call whose path is not in the ignored set at that time has its
fresh flag true; ignored records may remain stale. -/
theorem befresh_makes_nonignored_fresh (disk : Disk) (scanFiles : List String)
    (t : FileTracker) (p : String) (item : TrackMapItem)
    (hall : t.allFresh = false) (hmem : mapGet t.map p = some item)
    (hign : p ∉ t.ignoredFilePaths) :
    freshAt (beFresh disk scanFiles t).map p = some true := by
  unfold beFresh
  rw [hall]
  simp only [Bool.not_false, if_true]
  set t1 := if !t.startPathLoaded then loadStartPath disk scanFiles t else t with ht1
  have hmem1 : mapGet t1.map p = some item := by
    rw [ht1]
    by_cases hs : t.startPathLoaded
    · simp only [hs, Bool.not_true, Bool.false_eq_true, if_false]
      exact hmem
    · have hs2 : t.startPathLoaded = false := by
        revert hs
        cases t.startPathLoaded <;> simp
      simp only [hs2, Bool.not_false, if_true]
      exact loadStartPath_mapGet scanFiles t hmem
  have hign1 : p ∉ t1.ignoredFilePaths := by
    rw [ht1]
    by_cases hs : t.startPathLoaded
    · simp only [hs, Bool.not_true, Bool.false_eq_true, if_false]
      exact hign
    · have hs2 : t.startPathLoaded = false := by
        revert hs
        cases t.startPathLoaded <;> simp
      simp only [hs2, Bool.not_false, if_true]
      rw [loadStartPath_ignoredFilePaths]
      exact hign
  show freshAt (beFreshLoop disk t1).map p = some true
  unfold beFreshLoop
  refine beFreshLoop_freshAt disk p t1.map t1 hign1 ?_
  by_cases hf : item.fresh
  · refine Or.inl ?_
    unfold freshAt
    rw [hmem1]
    simp [hf]
  · have hf2 : item.fresh = false := by
      revert hf
      cases item.fresh <;> simp
    exact Or.inr ⟨item, hmem1, hf2, mem_of_mapGet_eq_some hmem1⟩

/-- Claim C1 witness for the amended statement: one stale non-ignored
record becomes fresh. -/
theorem befresh_makes_nonignored_fresh_witness :
    oneStaleTracker.allFresh = false ∧
    mapGet oneStaleTracker.map "/p/a.css" = some staleItem ∧
    "/p/a.css" ∉ oneStaleTracker.ignoredFilePaths ∧
    freshAt (beFresh sampleDisk [] oneStaleTracker).map "/p/a.css" = some true := by
  have h := befresh_makes_nonignored_fresh sampleDisk [] oneStaleTracker "/p/a.css" staleItem
    rfl (by decide) (by decide)
  exact ⟨rfl, by decide, by decide, h⟩

end CssNav
